import Mathlib

/-!
Shallow embedding of the `bw` book-structure extraction core
(`src/book/_utils.py`, `src/book/epub.py`, `src/book/pdf.py`) together with
proofs of the specification claims about it.

Python strings are modelled as Lean `String` / `List Char` (one element per
code point, matching Python's `len` and indexing).  Python's `str.lower`,
`str.strip` and the `\s` / `\w` regex classes are modelled on their ASCII
range, which is the range exercised by the constants and titles of this
code base.  Standard-library services that the source calls (zip entry
lookup, UTF-8 decoding, `xml.etree` parsing, the `html.parser` tokenizer,
`pdfplumber` page objects) enter the embedding either as explicit function
parameters or as small models noted at their definition sites; everything
below those seams is translated directly from the source.
-/

namespace BW

/-- Characters matched by the regex class `[ \t]` used in the two
`re.sub(r"[ \t]+", " ", text)` calls (`pdf.py:_normalize_text`,
`epub.py:_TextExtractor.get_text`). -/
def isHT (c : Char) : Bool := c = ' ' || c = '\t'

/-- ASCII whitespace removed by Python `str.strip()` (model of the ASCII
part of Python's whitespace set). -/
def isPyWS (c : Char) : Bool :=
  c = ' ' || c = '\t' || c = '\n' || c = '\r' || c = '\x0b' || c = '\x0c'

/-- `re.sub(r"[ \t]+", " ", ·)` on a character list: every maximal run of
spaces/tabs collapses to a single space.  The flag records whether the run
currently being scanned has already emitted its space. -/
def squeezeHTAux : Bool → List Char → List Char
  | _, [] => []
  | b, c :: cs =>
    if isHT c then
      if b then squeezeHTAux true cs else ' ' :: squeezeHTAux true cs
    else c :: squeezeHTAux false cs

def squeezeHT (l : List Char) : List Char := squeezeHTAux false l

/-- `re.sub(r"\n{3,}", "\n\n", ·)` on a character list: every maximal run of
three or more newlines collapses to exactly two.  `n` counts the newlines of
the run currently being scanned. -/
def squeezeNLAux : Nat → List Char → List Char
  | n, [] => List.replicate (min n 2) '\n'
  | n, c :: cs =>
    if c = '\n' then squeezeNLAux (n + 1) cs
    else List.replicate (min n 2) '\n' ++ c :: squeezeNLAux 0 cs

def squeezeNL (l : List Char) : List Char := squeezeNLAux 0 l

/-- Python `str.strip()` on a character list: drop the maximal whitespace
prefix, then the maximal whitespace suffix. -/
def pyStripL (l : List Char) : List Char :=
  (l.dropWhile isPyWS).rdropWhile isPyWS

/-- The normalization pipeline shared by `pdf.py:_normalize_text` and the
tail of `epub.py:_TextExtractor.get_text`: collapse horizontal whitespace,
collapse newline runs, strip. -/
def normL (l : List Char) : List Char :=
  pyStripL (squeezeNL (squeezeHT l))

/-- `pdf.py:_normalize_text`. -/
def normalizeText (s : String) : String := ⟨normL s.data⟩

/-- `true` iff the list contains no tab and no two adjacent spaces, i.e. it
is a fixed point of `squeezeHT`-style collapsing.  The flag means "the
previous character was a space". -/
def htOKAux : Bool → List Char → Bool
  | _, [] => true
  | b, c :: cs =>
    if c = '\t' then false
    else if c = ' ' then !b && htOKAux true cs
    else htOKAux false cs

/-- `true` iff the list contains no run of three or more newlines, given
that `n` newlines immediately precede it. -/
def nlOKAux : Nat → List Char → Bool
  | _, [] => true
  | n, c :: cs =>
    if c = '\n' then decide (n < 2) && nlOKAux (n + 1) cs
    else nlOKAux 0 cs

theorem htOKAux_squeezeHTAux (l : List Char) :
    ∀ b, htOKAux b (squeezeHTAux b l) = true := by
  induction l with
  | nil => intro b; simp [squeezeHTAux, htOKAux]
  | cons c cs ih =>
    intro b
    by_cases h : isHT c = true
    · have hc' : c = ' ' ∨ c = '\t' := by
        simp [isHT, decide_eq_true_eq] at h; tauto
      cases b with
      | true => simpa [squeezeHTAux, h] using ih true
      | false =>
        simp only [squeezeHTAux, h, if_pos, Bool.false_eq_true, if_false]
        simpa [htOKAux] using ih true
    · have hc1 : (c = '\t') = False := by
        simp [isHT] at h; simp [h.2]
      have hc2 : (c = ' ') = False := by
        simp [isHT] at h; simp [h.1]
      simp only [squeezeHTAux, h, Bool.false_eq_true, if_false]
      simpa [htOKAux, hc1, hc2] using ih false

theorem squeezeHTAux_of_htOKAux (l : List Char) :
    ∀ b, htOKAux b l = true → squeezeHTAux b l = l := by
  induction l with
  | nil => intro b _; rfl
  | cons c cs ih =>
    intro b hb
    by_cases ht : c = '\t'
    · simp [htOKAux, ht] at hb
    · by_cases hs : c = ' '
      · cases b with
        | true => simp [htOKAux, ht, hs] at hb
        | false =>
          simp only [htOKAux, ht, hs, if_false, if_pos, Bool.not_false,
            Bool.true_and, if_true] at hb
          have := ih true hb
          simp [squeezeHTAux, hs, isHT, this]
      · have hOK : htOKAux false cs = true := by
          simpa [htOKAux, ht, hs] using hb
        have := ih false hOK
        simp [squeezeHTAux, isHT, hs, ht, this]

theorem htOKAux_mono (l : List Char) (h : htOKAux true l = true) :
    htOKAux false l = true := by
  cases l with
  | nil => rfl
  | cons c cs =>
    by_cases ht : c = '\t'
    · simp [htOKAux, ht] at h
    · by_cases hs : c = ' '
      · simp [htOKAux, ht, hs] at h
      · simpa [htOKAux, ht, hs] using h

theorem nlOKAux_mono (l : List Char) :
    ∀ m n, m ≤ n → nlOKAux n l = true → nlOKAux m l = true := by
  induction l with
  | nil => intro m n _ _; rfl
  | cons c cs ih =>
    intro m n hmn h
    by_cases hc : c = '\n'
    · simp only [nlOKAux, hc, if_pos, Bool.and_eq_true, decide_eq_true_eq] at h ⊢
      exact ⟨by omega, ih (m + 1) (n + 1) (by omega) h.2⟩
    · simpa [nlOKAux, hc] using h

theorem nlOKAux_squeezeNLAux (l : List Char) :
    ∀ n, nlOKAux 0 (squeezeNLAux n l) = true := by
  induction l with
  | nil =>
    intro n
    match n with
    | 0 => simp [squeezeNLAux, nlOKAux]
    | 1 => simp [squeezeNLAux, nlOKAux]
    | n + 2 =>
      have : min (n + 2) 2 = 2 := by omega
      simp [squeezeNLAux, this, nlOKAux, List.replicate]
  | cons c cs ih =>
    intro n
    by_cases hc : c = '\n'
    · simpa [squeezeNLAux, hc] using ih (n + 1)
    · have tail : nlOKAux 0 (c :: squeezeNLAux 0 cs) = true := by
        simpa [nlOKAux, hc] using ih 0
      match n with
      | 0 => simpa [squeezeNLAux, hc] using tail
      | 1 =>
        simp only [squeezeNLAux, hc, if_false]
        simpa [nlOKAux, List.replicate, hc] using ih 0
      | n + 2 =>
        have hmin : min (n + 2) 2 = 2 := by omega
        simp only [squeezeNLAux, hc, if_false, hmin]
        simpa [nlOKAux, List.replicate, hc] using ih 0

theorem squeezeNLAux_of_nlOKAux (l : List Char) :
    ∀ n, n ≤ 2 → nlOKAux n l = true →
      squeezeNLAux n l = List.replicate n '\n' ++ l := by
  induction l with
  | nil =>
    intro n h2 _
    simp [squeezeNLAux, Nat.min_eq_left h2]
  | cons c cs ih =>
    intro n h2 h
    by_cases hc : c = '\n'
    · simp only [nlOKAux, hc, if_pos, Bool.and_eq_true, decide_eq_true_eq] at h
      have := ih (n + 1) (by omega) h.2
      rw [squeezeNLAux, if_pos hc, this, List.replicate_succ']
      simp [hc]
    · have hOK : nlOKAux 0 cs = true := by simpa [nlOKAux, hc] using h
      have := ih 0 (by omega) hOK
      simp only [squeezeNLAux, hc, if_false, this, Nat.min_eq_left h2]
      simp

theorem squeezeNLAux_head (l : List Char) :
    ∀ n, (squeezeNLAux (n + 1) l).head? = some '\n' := by
  induction l with
  | nil =>
    intro n
    have : min (n + 1) 2 = 1 ∨ min (n + 1) 2 = 2 := by omega
    rcases this with h | h <;> simp [squeezeNLAux, h, List.replicate]
  | cons c cs ih =>
    intro n
    by_cases hc : c = '\n'
    · simpa [squeezeNLAux, hc] using ih (n + 1)
    · have : min (n + 1) 2 = 1 ∨ min (n + 1) 2 = 2 := by omega
      rcases this with h | h <;> simp [squeezeNLAux, hc, h, List.replicate]

theorem htOKAux_head_nl (l : List Char) (h : l.head? = some '\n') :
    htOKAux true l = htOKAux false l := by
  cases l with
  | nil => rfl
  | cons c cs =>
    simp only [List.head?_cons, Option.some.injEq] at h
    simp [htOKAux, h]

theorem htOKAux_squeezeNLAux (l : List Char) :
    ∀ n b, htOKAux b l = true → htOKAux b (squeezeNLAux n l) = true := by
  induction l with
  | nil =>
    intro n b _
    match n with
    | 0 => simp [squeezeNLAux, htOKAux]
    | 1 => simp [squeezeNLAux, htOKAux, List.replicate]
    | n + 2 =>
      have : min (n + 2) 2 = 2 := by omega
      simp [squeezeNLAux, this, htOKAux, List.replicate]
  | cons c cs ih =>
    intro n b h
    by_cases hnl : c = '\n'
    · have hcs : htOKAux false cs = true := by simpa [htOKAux, hnl] using h
      have hout : htOKAux false (squeezeNLAux (n + 1) cs) = true :=
        ih (n + 1) false hcs
      cases b with
      | false => simpa [squeezeNLAux, hnl] using hout
      | true =>
        rw [squeezeNLAux, if_pos hnl,
          htOKAux_head_nl _ (squeezeNLAux_head cs n)]
        exact hout
    · by_cases htb : c = '\t'
      · simp [htOKAux, htb] at h
      · by_cases hsp : c = ' '
        · cases b with
          | true => simp [htOKAux, htb, hsp] at h
          | false =>
            have hcs : htOKAux true cs = true := by
              simpa [htOKAux, htb, hsp] using h
            have hout := ih 0 true hcs
            have tail : htOKAux false (c :: squeezeNLAux 0 cs) = true := by
              simp [htOKAux, htb, hsp, hout]
            match n with
            | 0 => simpa [squeezeNLAux, hnl] using tail
            | 1 => simp [squeezeNLAux, hnl, List.replicate, htOKAux, htb, hsp, hout]
            | n + 2 =>
              have hmin : min (n + 2) 2 = 2 := by omega
              simp [squeezeNLAux, hnl, hmin, List.replicate, htOKAux, htb, hsp, hout]
        · have hcs : htOKAux false cs = true := by
            simpa [htOKAux, htb, hsp] using h
          have hout := ih 0 false hcs
          have tail : ∀ b', htOKAux b' (c :: squeezeNLAux 0 cs) = true := by
            intro b'; simp [htOKAux, htb, hsp, hout]
          match n with
          | 0 => simpa [squeezeNLAux, hnl] using tail b
          | 1 => simp [squeezeNLAux, hnl, List.replicate, htOKAux, htb, hsp, hout]
          | n + 2 =>
            have hmin : min (n + 2) 2 = 2 := by omega
            simp [squeezeNLAux, hnl, hmin, List.replicate, htOKAux, htb, hsp, hout]

theorem htOKAux_cons_tab (b : Bool) (cs : List Char) :
    htOKAux b ('\t' :: cs) = false := by
  simp [htOKAux]

theorem htOKAux_cons_space (b : Bool) (cs : List Char) :
    htOKAux b (' ' :: cs) = (!b && htOKAux true cs) := by
  simp [htOKAux]

theorem htOKAux_cons_other (b : Bool) (c : Char) (cs : List Char)
    (h1 : c ≠ '\t') (h2 : c ≠ ' ') :
    htOKAux b (c :: cs) = htOKAux false cs := by
  simp [htOKAux, h1, h2]

theorem nlOKAux_cons_nl (n : Nat) (cs : List Char) :
    nlOKAux n ('\n' :: cs) = (decide (n < 2) && nlOKAux (n + 1) cs) := by
  simp [nlOKAux]

theorem nlOKAux_cons_other (n : Nat) (c : Char) (cs : List Char)
    (h : c ≠ '\n') : nlOKAux n (c :: cs) = nlOKAux 0 cs := by
  simp [nlOKAux, h]

theorem htOKAux_append_left (x y : List Char) :
    ∀ b, htOKAux b (x ++ y) = true → htOKAux b x = true := by
  induction x with
  | nil => intro b _; rfl
  | cons c cs ih =>
    intro b h
    rw [List.cons_append] at h
    by_cases ht : c = '\t'
    · subst ht; rw [htOKAux_cons_tab] at h; exact absurd h (by simp)
    · by_cases hs : c = ' '
      · subst hs
        rw [htOKAux_cons_space, Bool.and_eq_true] at h ⊢
        exact ⟨h.1, ih true h.2⟩
      · rw [htOKAux_cons_other b c _ ht hs] at h ⊢
        exact ih false h

theorem nlOKAux_append_left (x y : List Char) :
    ∀ n, nlOKAux n (x ++ y) = true → nlOKAux n x = true := by
  induction x with
  | nil => intro n _; rfl
  | cons c cs ih =>
    intro n h
    rw [List.cons_append] at h
    by_cases hc : c = '\n'
    · subst hc
      rw [nlOKAux_cons_nl, Bool.and_eq_true] at h ⊢
      exact ⟨h.1, ih (n + 1) h.2⟩
    · rw [nlOKAux_cons_other n c _ hc] at h ⊢
      exact ih 0 h

theorem htOKAux_append_right (x z : List Char) :
    ∀ b, htOKAux b (x ++ z) = true → htOKAux false z = true := by
  induction x with
  | nil =>
    intro b h
    cases b with
    | false => simpa using h
    | true => exact htOKAux_mono z (by simpa using h)
  | cons c cs ih =>
    intro b h
    rw [List.cons_append] at h
    by_cases ht : c = '\t'
    · subst ht; rw [htOKAux_cons_tab] at h; exact absurd h (by simp)
    · by_cases hs : c = ' '
      · subst hs
        rw [htOKAux_cons_space, Bool.and_eq_true] at h
        exact ih true h.2
      · rw [htOKAux_cons_other b c _ ht hs] at h
        exact ih false h

theorem nlOKAux_append_right (x z : List Char) :
    ∀ n, nlOKAux n (x ++ z) = true → nlOKAux 0 z = true := by
  induction x with
  | nil =>
    intro n h
    exact nlOKAux_mono z 0 n (Nat.zero_le n) (by simpa using h)
  | cons c cs ih =>
    intro n h
    rw [List.cons_append] at h
    by_cases hc : c = '\n'
    · subst hc
      rw [nlOKAux_cons_nl, Bool.and_eq_true] at h
      exact ih (n + 1) h.2
    · rw [nlOKAux_cons_other n c _ hc] at h
      exact ih 0 h

theorem rdropWhile_decomp (p : Char → Bool) (l : List Char) :
    ∃ y, l = l.rdropWhile p ++ y := by
  obtain ⟨y, hy⟩ := List.rdropWhile_prefix p (l := l)
  exact ⟨y, hy.symm⟩

theorem rdropWhile_getLast (p : Char → Bool) (l : List Char) :
    ∀ d, (l.rdropWhile p).getLast? = some d → p d = false := by
  intro d h
  have hne : l.rdropWhile p ≠ [] := by
    intro hnil
    rw [hnil] at h
    simp at h
  have hlast := List.rdropWhile_last_not p l hne
  have := List.getLast?_eq_getLast_of_ne_nil hne
  rw [this] at h
  have hd : d = (l.rdropWhile p).getLast hne := by
    simpa using h.symm
  subst hd
  simpa using hlast

theorem rdropWhile_head (p : Char → Bool) (l : List Char) :
    ∀ c, (l.rdropWhile p).head? = some c → l.head? = some c := by
  intro c h
  obtain ⟨y, hy⟩ := rdropWhile_decomp p l
  match hr : l.rdropWhile p with
  | [] => rw [hr] at h; simp at h
  | a :: rest =>
    rw [hr] at h hy
    simp only [List.head?_cons, Option.some.injEq] at h
    rw [hy]
    simp [h]

theorem rdropWhile_of_getLast (p : Char → Bool) (l : List Char)
    (h : ∀ d, l.getLast? = some d → p d = false) :
    l.rdropWhile p = l := by
  rw [List.rdropWhile_eq_self_iff]
  intro hl hp
  have := h (l.getLast hl) (List.getLast?_eq_getLast_of_ne_nil hl)
  rw [this] at hp
  exact absurd hp (by simp)

theorem head_dropWhile (p : Char → Bool) (l : List Char) :
    ∀ c, (l.dropWhile p).head? = some c → p c = false := by
  induction l with
  | nil => intro c h; simp at h
  | cons a cs ih =>
    intro c h
    by_cases hp : p a = true
    · rw [List.dropWhile_cons_of_pos hp] at h
      exact ih c h
    · rw [List.dropWhile_cons_of_neg (by simpa using hp)] at h
      simp only [List.head?_cons, Option.some.injEq] at h
      subst h
      simpa using hp

/-- `true` iff the list has no leading and no trailing Python whitespace,
i.e. it is a fixed point of `str.strip()`. -/
def strippedOK (l : List Char) : Bool :=
  (match l.head? with
   | none => true
   | some c => !isPyWS c) &&
  (match l.getLast? with
   | none => true
   | some c => !isPyWS c)

theorem strippedOK_pyStripL (l : List Char) : strippedOK (pyStripL l) = true := by
  unfold strippedOK
  refine Bool.and_eq_true_iff.mpr ⟨?_, ?_⟩
  · cases hh : (pyStripL l).head? with
    | none => rfl
    | some c =>
      have h1 : (l.dropWhile isPyWS).head? = some c :=
        rdropWhile_head isPyWS (l.dropWhile isPyWS) c hh
      have := head_dropWhile isPyWS l c h1
      simp [this]
  · cases hh : (pyStripL l).getLast? with
    | none => rfl
    | some c =>
      have := rdropWhile_getLast isPyWS (l.dropWhile isPyWS) c hh
      simp [this]

theorem pyStripL_of_strippedOK (l : List Char) (h : strippedOK l = true) :
    pyStripL l = l := by
  unfold strippedOK at h
  rw [Bool.and_eq_true_iff] at h
  have hdrop : l.dropWhile isPyWS = l := by
    cases l with
    | nil => rfl
    | cons c cs =>
      have : isPyWS c = false := by
        have := h.1
        simpa [Bool.not_eq_eq_eq_not] using this
      exact List.dropWhile_cons_of_neg (by simp [this])
  rw [pyStripL, hdrop]
  apply rdropWhile_of_getLast
  intro d hd
  have := h.2
  rw [hd] at this
  simpa [Bool.not_eq_eq_eq_not] using this

theorem htOKAux_pyStripL (l : List Char) (h : htOKAux false l = true) :
    htOKAux false (pyStripL l) = true := by
  have hsplit : l.takeWhile isPyWS ++ l.dropWhile isPyWS = l :=
    List.takeWhile_append_dropWhile isPyWS l
  have h1 : htOKAux false (l.dropWhile isPyWS) = true := by
    apply htOKAux_append_right (l.takeWhile isPyWS) _ false
    rw [hsplit]; exact h
  obtain ⟨y, hy⟩ := rdropWhile_decomp isPyWS (l.dropWhile isPyWS)
  unfold pyStripL
  apply htOKAux_append_left _ y
  rw [← hy]
  exact h1

theorem nlOKAux_pyStripL (l : List Char) (h : nlOKAux 0 l = true) :
    nlOKAux 0 (pyStripL l) = true := by
  have hsplit : l.takeWhile isPyWS ++ l.dropWhile isPyWS = l :=
    List.takeWhile_append_dropWhile isPyWS l
  have h1 : nlOKAux 0 (l.dropWhile isPyWS) = true := by
    apply nlOKAux_append_right (l.takeWhile isPyWS) _ 0
    rw [hsplit]; exact h
  obtain ⟨y, hy⟩ := rdropWhile_decomp isPyWS (l.dropWhile isPyWS)
  unfold pyStripL
  apply nlOKAux_append_left _ y
  rw [← hy]
  exact h1

theorem normL_idem (l : List Char) : normL (normL l) = normL l := by
  set t := normL l with ht
  have hht : htOKAux false t = true := by
    rw [ht]
    exact htOKAux_pyStripL _
      (htOKAux_squeezeNLAux _ 0 false (htOKAux_squeezeHTAux l false))
  have hnl : nlOKAux 0 t = true := by
    rw [ht]
    exact nlOKAux_pyStripL _ (nlOKAux_squeezeNLAux _ 0)
  have hst : strippedOK t = true := by rw [ht]; exact strippedOK_pyStripL _
  show pyStripL (squeezeNL (squeezeHT t)) = t
  rw [show squeezeHT t = t from squeezeHTAux_of_htOKAux t false hht]
  rw [show squeezeNL t = t by
    simpa using squeezeNLAux_of_nlOKAux t 0 (by omega) hnl]
  exact pyStripL_of_strippedOK t hst

/-- **C3.** The text normalization (collapse runs of horizontal whitespace
to one space, collapse 3 or more consecutive newlines to exactly 2, trim
leading and trailing whitespace) is idempotent: for every string `s`,
normalizing the normalization of `s` equals normalizing `s` once. -/
theorem normalizeText_idempotent (s : String) :
    normalizeText (normalizeText s) = normalizeText s := by
  show (⟨normL (normL s.data)⟩ : String) = ⟨normL s.data⟩
  rw [normL_idem]

/-! ## Data model (`src/book/_utils.py`) -/

/-- `_utils.py:Chapter`. -/
structure Chapter where
  title : String
  text : String
deriving Repr, DecidableEq

/-- `_utils.py:Book`. -/
structure Book where
  title : String
  author : String
  chapters : List Chapter
deriving Repr, DecidableEq

/-- ASCII model of Python `str.lower` (the constants and titles involved
are ASCII). -/
def pyLowerChar (c : Char) : Char :=
  if 'A' ≤ c ∧ c ≤ 'Z' then Char.ofNat (c.toNat + 32) else c

def pyLower (s : String) : String := ⟨s.data.map pyLowerChar⟩

/-- Python `str.strip()`. -/
def pyStrip (s : String) : String := ⟨pyStripL s.data⟩

/-- `_utils.py:NON_CONTENT_TITLES` (a Python `set`; only membership is
observed, so a list model is faithful). -/
def NON_CONTENT_TITLES : List String :=
  ["title page", "titlepage", "cover", "copyright", "dedication",
   "acknowledgments", "acknowledgements", "notes", "index", "bibliography",
   "references", "about the author", "also by", "praise for", "contents",
   "table of contents", "photographs", "photo insert", "maps", "illustrations"]

/-- `_utils.py:is_content_chapter`. -/
def is_content_chapter (title : String) : Bool :=
  !(NON_CONTENT_TITLES.contains (pyStrip (pyLower title)))

/-- **C10.** The front/back-matter exclusion test is an exact-equality
membership test on the lowercased, trimmed title: any title whose
lowercased, trimmed form is not literally a member of the exclusion set is
kept, and in particular the strict supersets "Copyright Page" and
"Notes on a Life" are kept even though they contain excluded labels. -/
theorem is_content_chapter_exact_membership :
    (∀ t : String, pyStrip (pyLower t) ∉ NON_CONTENT_TITLES →
      is_content_chapter t = true) ∧
    is_content_chapter "Copyright Page" = true ∧
    is_content_chapter "Notes on a Life" = true := by
  refine ⟨?_, by decide, by decide⟩
  intro t h
  unfold is_content_chapter
  simp only [Bool.not_eq_true']
  rw [← Bool.not_eq_true]
  intro hc
  exact h (by simpa using hc)

/-- Witness for `is_content_chapter_exact_membership` at the concrete
title "Copyright Page". -/
theorem is_content_chapter_exact_membership_witness :
    pyStrip (pyLower "Copyright Page") ∉ NON_CONTENT_TITLES ∧
      is_content_chapter "Copyright Page" = true :=
  ⟨by decide, is_content_chapter_exact_membership.1 "Copyright Page" (by decide)⟩

/-! ## Markup text extraction (`src/book/epub.py:_TextExtractor`) -/

/-- Events produced by the stdlib `html.parser.HTMLParser` tokenizer and
consumed by `_TextExtractor`'s handler methods. -/
inductive HTok where
  | startTag (name : String)
  | endTag (name : String)
  | data (s : String)
deriving Repr, DecidableEq

/-- The exclusion tags of `_TextExtractor.handle_starttag`/`handle_endtag`. -/
def skipTags : List String := ["script", "style", "head"]

/-- The block-level tags of `_TextExtractor.handle_endtag`. -/
def blockTags : List String :=
  ["p", "div", "br", "h1", "h2", "h3", "h4", "h5", "h6", "li"]

/-- The mutable state of a `_TextExtractor` instance: `_text_parts` and
`_skip_depth` (a Python `int`, hence `Int`: unbalanced end tags drive it
negative). -/
structure ExtState where
  text_parts : List String
  skip_depth : Int
deriving Repr, DecidableEq

/-- `_TextExtractor.__init__`. -/
def initExtState : ExtState := ⟨[], 0⟩

/-- `_TextExtractor.handle_starttag`. -/
def handle_starttag (st : ExtState) (tag : String) : ExtState :=
  if skipTags.contains tag then { st with skip_depth := st.skip_depth + 1 }
  else st

/-- `_TextExtractor.handle_endtag`. -/
def handle_endtag (st : ExtState) (tag : String) : ExtState :=
  if skipTags.contains tag then { st with skip_depth := st.skip_depth - 1 }
  else if blockTags.contains tag then
    { st with text_parts := st.text_parts ++ ["\n"] }
  else st

/-- `_TextExtractor.handle_data`. -/
def handle_data (st : ExtState) (d : String) : ExtState :=
  if st.skip_depth = 0 then { st with text_parts := st.text_parts ++ [d] }
  else st

/-- Dispatch of one tokenizer event to the matching handler, as
`HTMLParser.feed` does. -/
def feedTok (st : ExtState) : HTok → ExtState
  | .startTag n => handle_starttag st n
  | .endTag n => handle_endtag st n
  | .data s => handle_data st s

def feed (st : ExtState) (toks : List HTok) : ExtState := toks.foldl feedTok st

/-- `_TextExtractor.get_text`: `"".join(self._text_parts)` followed by the
same two `re.sub` calls and `.strip()` as `_normalize_text`. -/
def get_text (st : ExtState) : String :=
  normalizeText (String.join st.text_parts)

/-- Tag name inside a `<...>` group: up to the first space or slash,
lowercased — a model of the stdlib `html.parser` tokenizer's tag-name
extraction, adequate for attribute-free markup. -/
def tagNameOf (inner : List Char) : String :=
  ⟨(inner.takeWhile (fun c => !(c = ' ' || c = '/'))).map Char.toLower⟩

/-- A self-closing `<tag/>` makes `HTMLParser` call `handle_startendtag`,
whose default calls `handle_starttag` then `handle_endtag`. -/
def startToks (inner : List Char) : List HTok :=
  if inner.getLast? = some '/' then
    [HTok.startTag (tagNameOf inner), HTok.endTag (tagNameOf inner)]
  else [HTok.startTag (tagNameOf inner)]

/-- Model of the stdlib `html.parser.HTMLParser` tokenizer on plain markup
(no attributes with `>` inside, no comments, no entity references), the
fragment relevant to this code base.  Structural recursion on a fuel
counter; every step consumes at least one character, so fuel equal to the
input length (as supplied by `tokenize`) is never exhausted. -/
def tokenizeFuel : Nat → List Char → List HTok
  | 0, _ => []
  | _, [] => []
  | fuel + 1, '<' :: '/' :: r =>
      HTok.endTag (tagNameOf (r.takeWhile (fun c => c != '>'))) ::
        tokenizeFuel fuel ((r.dropWhile (fun c => c != '>')).drop 1)
  | fuel + 1, '<' :: r =>
      startToks (r.takeWhile (fun c => c != '>')) ++
        tokenizeFuel fuel ((r.dropWhile (fun c => c != '>')).drop 1)
  | fuel + 1, c :: r =>
      HTok.data ⟨c :: r.takeWhile (fun c => c != '<')⟩ ::
        tokenizeFuel fuel (r.dropWhile (fun c => c != '<'))

def tokenize (l : List Char) : List HTok := tokenizeFuel l.length l

/-- `epub.py:_extract_text_from_html`. -/
def _extract_text_from_html (html : String) : String :=
  get_text (feed initExtState (tokenize html.data))

/-- **C4.** The markup text extractor drops all character data that lies
inside a `script`, `style`, or `head` element (the depth counter being
nonzero), emits one newline at the close of each block-level element, and
on the input `"<div>A</div><script>ignored</script><p>B</p>"` the
extracted, normalized text is exactly `"A\nB"`. -/
theorem extractor_excludes_and_breaks :
    (∀ (st : ExtState) (d : String), st.skip_depth ≠ 0 →
        (handle_data st d).text_parts = st.text_parts) ∧
    (∀ (st : ExtState) (tag : String),
        tag ∈ blockTags → tag ∉ skipTags →
        (handle_endtag st tag).text_parts = st.text_parts ++ ["\n"]) ∧
    _extract_text_from_html "<div>A</div><script>ignored</script><p>B</p>" =
      "A\nB" := by
  refine ⟨?_, ?_, by decide⟩
  · intro st d h
    simp [handle_data, h]
  · intro st tag hb hs
    simp [handle_endtag, hb, hs]

/-- Witness for `extractor_excludes_and_breaks`: the skip-depth clause at a
concrete state of depth 1, and the block-newline clause at `"div"`. -/
theorem extractor_excludes_and_breaks_witness :
    ((⟨["x"], 1⟩ : ExtState).skip_depth ≠ 0 ∧
      (handle_data ⟨["x"], 1⟩ "dropped").text_parts = ["x"]) ∧
    ("div" ∈ blockTags ∧ "div" ∉ skipTags ∧
      (handle_endtag ⟨["x"], 0⟩ "div").text_parts = ["x", "\n"]) :=
  ⟨⟨by decide, extractor_excludes_and_breaks.1 ⟨["x"], 1⟩ "dropped" (by decide)⟩,
   ⟨by decide, by decide,
    extractor_excludes_and_breaks.2.1 ⟨["x"], 0⟩ "div" (by decide) (by decide)⟩⟩

/-! ## Chapter-title extraction (`src/book/epub.py:_extract_chapter_title`)

`xml.etree.ElementTree` elements are modelled as a tree of tag, text and
children; `ET.fromstring` itself is a standard-library service and enters
as a function parameter returning `none` on `ParseError`. -/

inductive XTree where
  | node (tag : String) (text : Option String) (children : List XTree)
deriving Repr

def XTree.tag : XTree → String
  | node t _ _ => t

def XTree.text : XTree → Option String
  | node _ tx _ => tx

def XTree.children : XTree → List XTree
  | node _ _ cs => cs

/-- `root.find(tag)` with a plain tag path: first matching direct child. -/
def findChild (root : XTree) (tag : String) : Option XTree :=
  root.children.find? (fun c => c.tag == tag)

/-- `root.find(".//tag")`: first matching strict descendant in document
(preorder) order. -/
def findDescAux (tag : String) : List XTree → Option XTree
  | [] => none
  | XTree.node t tx ch :: cs =>
    if t == tag then some (XTree.node t tx ch)
    else
      match findDescAux tag ch with
      | some r => some r
      | none => findDescAux tag cs

def findDesc (root : XTree) (tag : String) : Option XTree :=
  findDescAux tag root.children

/-- The body of the `for tag in [...]` loop of `_extract_chapter_title`:
`el is not None and el.text` (Python truthiness), then strip, then the
non-empty/under-100 check, returning early on success. -/
def checkEl (el : Option XTree) : Option String :=
  match el with
  | none => none
  | some e =>
    match e.text with
    | none => none
    | some tx =>
      if tx ≠ "" then
        let t := pyStrip tx
        if t ≠ "" ∧ t.length < 100 then some t else none
      else none

/-- The four lookups of `_extract_chapter_title`, in loop order:
`"title"`, `".//h1"`, `".//h2"`, `".//h3"`. -/
def titleLookups (root : XTree) : List (Option XTree) :=
  [findChild root "title", findDesc root "h1", findDesc root "h2",
   findDesc root "h3"]

/-- `epub.py:_extract_chapter_title`, with `ET.fromstring` as the `parse`
parameter (`none` models `ET.ParseError`). -/
def _extract_chapter_title (parse : String → Option XTree)
    (html fallback : String) : String :=
  match parse html with
  | some root => (List.findSome? checkEl (titleLookups root)).getD fallback
  | none =>
    match parse ("<root>" ++ html ++ "</root>") with
    | some root => (List.findSome? checkEl (titleLookups root)).getD fallback
    | none => fallback

/-- The title-search rule as the spec words it (§4.4): search in priority
order document title element, first h1, first h2, first h3, and return the
first non-empty (stripped) text under 100 characters. -/
def specTitlePick (root : XTree) : Option String :=
  List.findSome?
    (fun el => el.bind (fun e => e.text.bind (fun tx =>
      let t := pyStrip tx
      if t ≠ "" ∧ t.length < 100 then some t else none)))
    (titleLookups root)

theorem checkEl_eq_spec (el : Option XTree) :
    checkEl el = el.bind (fun e => e.text.bind (fun tx =>
      let t := pyStrip tx
      if t ≠ "" ∧ t.length < 100 then some t else none)) := by
  match el with
  | none => rfl
  | some e =>
    match htx : e.text with
    | none => simp [checkEl, htx]
    | some tx =>
      by_cases h0 : tx = ""
      · subst h0
        simp [checkEl, htx, pyStrip, pyStripL, List.rdropWhile_nil]
      · simp [checkEl, htx, h0]

/-- **C9.** Chapter-title extraction from markup with a fallback string: if
the markup parses (directly, or after wrapping in a synthetic root on a
first failure), the result is the first non-empty stripped text shorter
than 100 characters in priority order title element, first h1, first h2,
first h3 (the fallback when no such text exists); if parsing fails both
ways, the result is the fallback unchanged. -/
theorem chapter_title_resolution :
    (∀ (parse : String → Option XTree) (html fallback : String),
        parse html = none → parse ("<root>" ++ html ++ "</root>") = none →
        _extract_chapter_title parse html fallback = fallback) ∧
    (∀ (parse : String → Option XTree) (html fallback : String)
        (root : XTree), parse html = some root →
        _extract_chapter_title parse html fallback =
          (specTitlePick root).getD fallback) ∧
    (∀ (parse : String → Option XTree) (html fallback : String)
        (root : XTree), parse html = none →
        parse ("<root>" ++ html ++ "</root>") = some root →
        _extract_chapter_title parse html fallback =
          (specTitlePick root).getD fallback) := by
  have hpick : ∀ root : XTree,
      List.findSome? checkEl (titleLookups root) = specTitlePick root := by
    intro root
    unfold specTitlePick
    congr 1
    funext el
    exact checkEl_eq_spec el
  refine ⟨?_, ?_, ?_⟩
  · intro parse html fallback h1 h2
    simp [_extract_chapter_title, h1, h2]
  · intro parse html fallback root h1
    simp [_extract_chapter_title, h1, hpick]
  · intro parse html fallback root h1 h2
    simp [_extract_chapter_title, h1, h2, hpick]

/-- Witness for `chapter_title_resolution` at concrete parse outcomes: a
parser that always fails yields the fallback; a parser yielding a tree
whose first `h1` has text `" My Title "` yields `"My Title"`. -/
theorem chapter_title_resolution_witness :
    ((fun _ : String => (none : Option XTree)) "<x>" = none ∧
      _extract_chapter_title (fun _ => none) "<x>" "Chapter 7" = "Chapter 7") ∧
    ((fun _ : String =>
        some (XTree.node "html" none
          [XTree.node "h1" (some " My Title ") []])) "<y>" =
        some (XTree.node "html" none
          [XTree.node "h1" (some " My Title ") []]) ∧
      _extract_chapter_title
        (fun _ => some (XTree.node "html" none
          [XTree.node "h1" (some " My Title ") []])) "<y>" "fb" = "My Title") := by
  constructor
  · exact ⟨rfl,
      chapter_title_resolution.1 (fun _ => none) "<x>" "Chapter 7" rfl rfl⟩
  · refine ⟨rfl, ?_⟩
    have := chapter_title_resolution.2.1
      (fun _ => some (XTree.node "html" none
        [XTree.node "h1" (some " My Title ") []])) "<y>" "fb"
      (XTree.node "html" none [XTree.node "h1" (some " My Title ") []]) rfl
    rw [this]
    simp only [specTitlePick, titleLookups, findChild, findDesc, findDescAux,
      XTree.children, XTree.tag, XTree.text]
    decide

/-! ## EPUB loading (`src/book/epub.py`)

The zip container is modelled as a partial map from entry names to raw
bytes (`none` models `KeyError`), UTF-8 decoding as a partial map from
bytes to strings (`none` models `UnicodeDecodeError` — which the source
catches nowhere), and `ET.fromstring` on the NCX and chapter documents as
parse functions returning `none` on `ET.ParseError`. -/

/-- Python dict lookup `m.get(k)`. -/
def dictGet (m : List (String × String)) (k : String) : Option String :=
  (m.find? (fun p => p.1 == k)).map (fun p => p.2)

/-- Python dict assignment `m[k] = v` (overwrite in place or append). -/
def dictSet (m : List (String × String)) (k v : String) :
    List (String × String) :=
  if m.any (fun p => p.1 == k) then
    m.map (fun p => if p.1 == k then (k, v) else p)
  else m ++ [(k, v)]

/-- Python `str.split(sep)` for a one-character separator (the two uses in
the source split on `"#"` and `"\n"`). -/
def splitChar (sep : Char) : List Char → List (List Char)
  | [] => [[]]
  | c :: cs =>
    let r := splitChar sep cs
    if c = sep then [] :: r
    else
      match r with
      | [] => [[c]]
      | h :: t => (c :: h) :: t

/-- `s.split("#")[0]`. -/
def splitHashHead (s : String) : String := ⟨(splitChar '#' s.data).headD []⟩

/-- First projection out of `Except`, for stating concrete outcomes. -/
def okOf {α : Type} (e : Except String α) : Option α :=
  match e with
  | .ok a => some a
  | .error _ => none

def errOf {α : Type} (e : Except String α) : Option String :=
  match e with
  | .ok _ => none
  | .error m => some m

/-- The `f"{opf_dir}/{href}"` resolution guarded by
`if opf_dir and opf_dir != "."` in `load_epub`. -/
def joinOpf (opfDir href : String) : String :=
  if opfDir ≠ "" ∧ opfDir ≠ "." then opfDir ++ "/" ++ href else href

/-- One `navPoint` element as `_parse_ncx` observes it: the `navLabel/text`
element (`none` = element missing) with its `.text` (`none` = Python
`None`), and the `content` element's `src` attribute (`none` = element
missing; an absent attribute is already defaulted to `""` by
`.get("src", "")`). -/
structure NavPoint where
  navLabel : Option (Option String)
  content : Option String
deriving Repr, DecidableEq

/-- The `for navpoint in root.findall(...)` loop of `_parse_ncx`. -/
def navFold (nps : List NavPoint) : List (String × String) :=
  nps.foldl
    (fun m np =>
      match np.navLabel, np.content with
      | some (some lt), some src =>
        if lt ≠ "" then dictSet m (splitHashHead src) (pyStrip lt) else m
      | _, _ => m)
    []

/-- `epub.py:_parse_ncx`.  `readB` is `zf.read` (`none` = `KeyError`,
caught), `decode` is `bytes.decode("utf-8")` (`none` =
`UnicodeDecodeError`, uncaught — it propagates), `parseNcxDoc` is
`ET.fromstring` (`none` = `ET.ParseError`, caught). -/
def _parse_ncx (readB : String → Option (List Nat))
    (decode : List Nat → Option String)
    (parseNcxDoc : String → Option (List NavPoint)) (ncxPath : String) :
    Except String (List (String × String)) :=
  match readB ncxPath with
  | none => .ok []
  | some bs =>
    match decode bs with
    | none => .error "UnicodeDecodeError"
    | some content =>
      match parseNcxDoc content with
      | none => .ok []
      | some nps => .ok (navFold nps)

/-- The values `_parse_opf` returns to `load_epub`: metadata title/author
(empty string when the element is absent), the resolved spine as
`(idref, href)` pairs, and the NCX href if any. -/
structure OpfResult where
  title : String
  author : String
  spineItems : List (String × String)
  ncxHref : Option String
deriving Repr, DecidableEq

/-- Title resolution for one spine entry (`load_epub` line
`chapter_title = ncx_titles.get(href) or _extract_chapter_title(...)`):
Python `or` falls through on `None` and on the empty string. -/
def resolveTitle (ncxTitles : List (String × String))
    (parseHtml : String → Option XTree) (i : Nat) (href content : String) :
    String :=
  match dictGet ncxTitles href with
  | some l =>
    if l ≠ "" then l
    else _extract_chapter_title parseHtml content ("Chapter " ++ toString (i + 1))
  | none => _extract_chapter_title parseHtml content ("Chapter " ++ toString (i + 1))

/-- The body of `load_epub`'s spine loop for entry `(i, href)`:
`.ok none` models `continue`, `.error` an uncaught exception. -/
def chapterForEntry (readB : String → Option (List Nat))
    (decode : List Nat → Option String) (parseHtml : String → Option XTree)
    (opfDir : String) (ncxTitles : List (String × String)) (i : Nat)
    (href : String) : Except String (Option Chapter) :=
  let full_href := splitHashHead (joinOpf opfDir href)
  match readB full_href with
  | none => .ok none
  | some bs =>
    match decode bs with
    | none => .error "UnicodeDecodeError"
    | some content =>
      let text := _extract_text_from_html content
      if text = "" ∨ text.length < 500 then .ok none
      else
        let chapter_title := resolveTitle ncxTitles parseHtml i href content
        if is_content_chapter chapter_title then
          .ok (some ⟨chapter_title, text⟩)
        else .ok none

/-- `load_epub`'s spine loop over the enumerated spine items. -/
def buildChapters (readB : String → Option (List Nat))
    (decode : List Nat → Option String) (parseHtml : String → Option XTree)
    (opfDir : String) (ncxTitles : List (String × String)) :
    List (Nat × (String × String)) → Except String (List Chapter)
  | [] => .ok []
  | (i, item) :: rest =>
    match chapterForEntry readB decode parseHtml opfDir ncxTitles i item.2 with
    | .error e => .error e
    | .ok none => buildChapters readB decode parseHtml opfDir ncxTitles rest
    | .ok (some ch) =>
      match buildChapters readB decode parseHtml opfDir ncxTitles rest with
      | .error e => .error e
      | .ok chs => .ok (ch :: chs)

/-- The tail of `load_epub`: assemble the `Book` from a given NCX title
mapping (`Book(title=title or path.stem, author=author, chapters=...)`). -/
def assembleBook (stem : String) (readB : String → Option (List Nat))
    (decode : List Nat → Option String) (parseHtml : String → Option XTree)
    (opf : OpfResult) (opfDir : String) (ncxTitles : List (String × String)) :
    Except String Book :=
  match buildChapters readB decode parseHtml opfDir ncxTitles
      opf.spineItems.enum with
  | .error e => .error e
  | .ok chapters =>
    .ok ⟨if opf.title ≠ "" then opf.title else stem, opf.author, chapters⟩

/-- `epub.py:load_epub`, from the point where the container and OPF have
been read successfully (their own failure modes are the fatal
`ContainerError`/`ManifestError` class, outside every claim here).
`stem` is `path.stem`. -/
def load_epub (stem : String) (readB : String → Option (List Nat))
    (decode : List Nat → Option String)
    (parseNcxDoc : String → Option (List NavPoint))
    (parseHtml : String → Option XTree) (opf : OpfResult) (opfDir : String) :
    Except String Book :=
  let ncxTitlesE : Except String (List (String × String)) :=
    match opf.ncxHref with
    | some h =>
      if h ≠ "" then _parse_ncx readB decode parseNcxDoc (joinOpf opfDir h)
      else .ok []
    | none => .ok []
  match ncxTitlesE with
  | .error e => .error e
  | .ok ncxTitles =>
    assembleBook stem readB decode parseHtml opf opfDir ncxTitles

/-! Concrete container contents used by counterexamples and witnesses:
one spine document of 500 copies of `a` (which the extractor maps to
itself), and an NCX whose single navPoint has the whitespace label `" "`
(truthy raw text, empty after `.strip()`). -/

def cexBigHtml : String := ⟨List.replicate 500 'a'⟩

def cexReadB : String → Option (List Nat) := fun p =>
  if p = "toc.ncx" then some [1]
  else if p = "ch1.xhtml" then some [0]
  else none

def cexDecode : List Nat → Option String := fun bs =>
  if bs = [1] then some "N" else if bs = [0] then some cexBigHtml else none

def cexParseNcx : String → Option (List NavPoint) := fun s =>
  if s = "N" then some [⟨some (some " "), some "ch1.xhtml"⟩] else none

def cexOpf : OpfResult := ⟨"T", "A", [("id1", "ch1.xhtml")], some "toc.ncx"⟩

/-- **C2, counterexample.** A navigation-index label can be present in the
parsed mapping and still lose: a navPoint whose label text is `" "` is
stored as the empty string, and Python's `or` then falls through to the
markup/positional title.  Here the mapping maps `"ch1.xhtml"` to `""`, yet
the produced chapter is titled `"Chapter 1"`, not `""`. -/
theorem nav_label_priority_cex :
    dictGet (navFold [⟨some (some " "), some "ch1.xhtml"⟩]) "ch1.xhtml" =
      some "" ∧
    okOf (load_epub "b" cexReadB cexDecode cexParseNcx (fun _ => none)
        cexOpf ".") =
      some ⟨"T", "A", [⟨"Chapter 1", cexBigHtml⟩]⟩ ∧
    "Chapter 1" ≠ "" := by
  refine ⟨by decide, ?_, by decide⟩
  set_option maxRecDepth 4000 in decide

/-- **C2, amended.** For every spine entry whose path has a *non-empty*
navigation-index label in the parsed mapping, the produced chapter's title
is that label; the markup-derived title and the positional fallback
`"Chapter N"` are used exactly when the label is absent or empty (Python
`or` on the `dict.get` result), and every chapter produced by the spine
loop carries the title this resolution assigns. -/
theorem nav_label_priority :
    (∀ (m : List (String × String)) (pH : String → Option XTree) (i : Nat)
        (href content l : String), dictGet m href = some l → l ≠ "" →
        resolveTitle m pH i href content = l) ∧
    (∀ (m : List (String × String)) (pH : String → Option XTree) (i : Nat)
        (href content : String),
        dictGet m href = none ∨ dictGet m href = some "" →
        resolveTitle m pH i href content =
          _extract_chapter_title pH content ("Chapter " ++ toString (i + 1))) ∧
    (∀ readB decode (pH : String → Option XTree) (opfDir : String)
        (m : List (String × String)) (i : Nat) (href : String) (ch : Chapter),
        chapterForEntry readB decode pH opfDir m i href = .ok (some ch) →
        ∃ bs content, readB (splitHashHead (joinOpf opfDir href)) = some bs ∧
          decode bs = some content ∧
          ch.title = resolveTitle m pH i href content) := by
  refine ⟨?_, ?_, ?_⟩
  · intro m pH i href content l hget hne
    unfold resolveTitle
    rw [hget]
    simp [hne]
  · intro m pH i href content hget
    unfold resolveTitle
    rcases hget with h | h
    · rw [h]
    · rw [h]
      simp
  · intro readB decode pH opfDir m i href ch h
    simp only [chapterForEntry] at h
    cases hrb : readB (splitHashHead (joinOpf opfDir href)) with
    | none => rw [hrb] at h; simp at h
    | some bs =>
      rw [hrb] at h
      dsimp only at h
      cases hdec : decode bs with
      | none => rw [hdec] at h; simp at h
      | some content =>
        rw [hdec] at h
        dsimp only at h
        refine ⟨bs, content, rfl, hdec, ?_⟩
        by_cases h1 : _extract_text_from_html content = "" ∨
            (_extract_text_from_html content).length < 500
        · rw [if_pos h1] at h; simp at h
        · rw [if_neg h1] at h
          by_cases h2 :
              is_content_chapter (resolveTitle m pH i href content) = true
          · rw [if_pos h2] at h
            simp only [Except.ok.injEq, Option.some.injEq] at h
            rw [← h]
          · rw [if_neg h2] at h; simp at h

/-- Witness for `nav_label_priority`: a non-empty label wins; an absent
label falls through to the markup/positional resolution. -/
theorem nav_label_priority_witness :
    (dictGet [("ch1.xhtml", "The Beginning")] "ch1.xhtml" =
        some "The Beginning" ∧ "The Beginning" ≠ "" ∧
      resolveTitle [("ch1.xhtml", "The Beginning")] (fun _ => none) 0
        "ch1.xhtml" "c" = "The Beginning") ∧
    (dictGet [] "ch1.xhtml" = none ∧
      resolveTitle [] (fun _ => none) 0 "ch1.xhtml" "c" =
        _extract_chapter_title (fun _ => none) "c" ("Chapter " ++ toString 1)) :=
  ⟨⟨by decide, by decide,
    nav_label_priority.1 [("ch1.xhtml", "The Beginning")] (fun _ => none) 0
      "ch1.xhtml" "c" "The Beginning" (by decide) (by decide)⟩,
   ⟨by decide,
    nav_label_priority.2.1 [] (fun _ => none) 0 "ch1.xhtml" "c"
      (Or.inl (by decide))⟩⟩

/-- **C7, counterexample.** A failing navigation index *can* make
`load_epub` raise: only `KeyError` and `ET.ParseError` are caught around
the NCX, so an NCX entry whose bytes do not decode as UTF-8 (e.g. the
single byte `0xFF`) propagates `UnicodeDecodeError` out of `load_epub`. -/
theorem ncx_failure_nonfatal_cex :
    errOf (load_epub "b" (fun p => if p = "toc.ncx" then some [255] else none)
        (fun _ => none) (fun _ => none) (fun _ => none)
        ⟨"", "", [], some "toc.ncx"⟩ ".") = some "UnicodeDecodeError" := by
  decide

/-- **C7, amended.** Absence of the navigation entry (`KeyError`) and XML
parse failure of the navigation document each yield an empty path-to-title
mapping, and the load continues exactly as with no navigation titles; a
navigation entry that fails UTF-8 decoding, however, propagates an error
out of `load_epub`. -/
theorem ncx_failure_degrades :
    (∀ readB decode pN (path : String), readB path = none →
        _parse_ncx readB decode pN path = .ok []) ∧
    (∀ readB decode pN (path : String) (bs : List Nat) (content : String),
        readB path = some bs → decode bs = some content →
        pN content = none → _parse_ncx readB decode pN path = .ok []) ∧
    (∀ (stem : String) readB decode pN pH (opf : OpfResult)
        (opfDir h : String), opf.ncxHref = some h → h ≠ "" →
        _parse_ncx readB decode pN (joinOpf opfDir h) = .ok [] →
        load_epub stem readB decode pN pH opf opfDir =
          assembleBook stem readB decode pH opf opfDir []) ∧
    (∀ (stem : String) readB decode pN pH (opf : OpfResult)
        (opfDir h : String) (bs : List Nat), opf.ncxHref = some h → h ≠ "" →
        readB (joinOpf opfDir h) = some bs → decode bs = none →
        load_epub stem readB decode pN pH opf opfDir =
          .error "UnicodeDecodeError") := by
  refine ⟨?_, ?_, ?_, ?_⟩
  · intro readB decode pN path h
    unfold _parse_ncx
    rw [h]
  · intro readB decode pN path bs content h1 h2 h3
    unfold _parse_ncx
    rw [h1]
    dsimp only
    rw [h2]
    dsimp only
    rw [h3]
  · intro stem readB decode pN pH opf opfDir h hh hne hok
    unfold load_epub
    rw [hh]
    simp only [hne, if_true, hok]
    simp [hne]
  · intro stem readB decode pN pH opf opfDir h bs hh hne hrb hdec
    unfold load_epub
    rw [hh]
    simp only [hne, if_true]
    unfold _parse_ncx
    rw [hrb]
    dsimp only
    rw [hdec]
    simp [hne]

/-- Witness for `ncx_failure_degrades`: a container with no NCX entry
yields the empty mapping; an undecodable NCX entry yields the error. -/
theorem ncx_failure_degrades_witness :
    ((fun _ : String => (none : Option (List Nat))) "toc.ncx" = none ∧
      _parse_ncx (fun _ => none) (fun _ => none) (fun _ => none) "toc.ncx" =
        .ok []) ∧
    load_epub "b" (fun p => if p = "toc.ncx" then some [255] else none)
        (fun _ => none) (fun _ => none) (fun _ => none)
        ⟨"", "", [], some "toc.ncx"⟩ "." = .error "UnicodeDecodeError" :=
  ⟨⟨rfl, ncx_failure_degrades.1 (fun _ => none) (fun _ => none)
      (fun _ => none) "toc.ncx" rfl⟩,
   ncx_failure_degrades.2.2.2 "b"
     (fun p => if p = "toc.ncx" then some [255] else none) (fun _ => none)
     (fun _ => none) (fun _ => none) ⟨"", "", [], some "toc.ncx"⟩ "."
     "toc.ncx" [255] rfl (by decide) (by decide) rfl⟩

/-! ## PDF loading (`src/book/pdf.py`)

`pdfplumber` objects are modelled as data: a page is its `chars` list plus
the result of `extract_text()` (`none` models Python `None`).  A char dict
carries the four keys the source reads, each `Option`al (`none` = key
absent), with coordinates and font sizes as exact rationals — the source's
float arithmetic on means and the `1.2` ratio is modelled exactly. -/

structure Glyph where
  size : Option ℚ
  top : Option ℚ
  x0 : Option ℚ
  text : Option String
deriving Repr, DecidableEq

structure Page where
  chars : List Glyph
  text : Option String
deriving Repr, DecidableEq

/-- `page.extract_text() or ""`. -/
def pageText (p : Page) : String := p.text.getD ""

/-- Python truthiness of `c.get("size")`: present and nonzero. -/
def sizeTruthy (c : Glyph) : Bool :=
  match c.size with
  | some s => s != 0
  | none => false

/-- `[c.get("size", 12) for c in chars if c.get("size")]`. -/
def glyphSizes (chars : List Glyph) : List ℚ :=
  chars.filterMap (fun c => if sizeTruthy c then some (c.size.getD 12) else none)

/-- `sum(sizes) / len(sizes)` (callers guard against the empty list). -/
def meanQ (l : List ℚ) : ℚ := l.sum / (l.length : ℚ)

/-- `round(x, 1)` with Python's round-half-to-even tie rule. -/
def pyRound1 (q : ℚ) : ℚ :=
  let t := q * 10
  let f : ℤ := ⌊t⌋
  let r : ℚ := t - (f : ℚ)
  (if r < 1/2 then (f : ℚ)
   else if 1/2 < r then ((f + 1 : ℤ) : ℚ)
   else if f % 2 = 0 then (f : ℚ) else ((f + 1 : ℤ) : ℚ)) / 10

/-- Ascending insertion sort, modelling `sorted(...)` on the rounded line
keys (distinct after dedup, so stability is moot). -/
def insertQ (q : ℚ) : List ℚ → List ℚ
  | [] => [q]
  | x :: xs => if q ≤ x then q :: x :: xs else x :: insertQ q xs

def sortQ (l : List ℚ) : List ℚ := l.foldr insertQ []

/-- The keys of `lines_by_top`, iterated in `sorted(...)` order.  The dict
groups chars by `round(char.get("top", 0), 1)`. -/
def sortedTops (chars : List Glyph) : List ℚ :=
  sortQ ((chars.map (fun c => pyRound1 (c.top.getD 0))).dedup)

/-- The chars of one line group, in page order. -/
def lineChars (chars : List Glyph) (t : ℚ) : List Glyph :=
  chars.filter (fun c => pyRound1 (c.top.getD 0) = t)

/-- Stable ascending insertion sort by `x.get("x0", 0)`, modelling Python's
stable `sorted(line_chars, key=lambda x: x.get("x0", 0))`. -/
def insertX0 (c : Glyph) : List Glyph → List Glyph
  | [] => [c]
  | x :: xs => if c.x0.getD 0 ≤ x.x0.getD 0 then c :: x :: xs else x :: insertX0 c xs

def sortX0 (l : List Glyph) : List Glyph := l.foldr insertX0 []

/-- The candidate text of a line: glyph texts concatenated left-to-right,
stripped. -/
def lineText (chars : List Glyph) (t : ℚ) : String :=
  pyStrip (String.join ((sortX0 (lineChars chars t)).map (fun c => c.text.getD "")))

/-- `pdf.py:_find_large_text_on_page`. -/
def _find_large_text_on_page (page : Page) : List (String × ℚ) :=
  if page.chars.isEmpty then []
  else
    let sizes := glyphSizes page.chars
    if sizes.isEmpty then []
    else
      let avg := meanQ sizes
      (sortedTops page.chars).filterMap (fun t =>
        let lineSizes := glyphSizes (lineChars page.chars t)
        if lineSizes.isEmpty then none
        else
          let lavg := meanQ lineSizes
          if avg * (6/5) < lavg then
            if lineText page.chars t ≠ "" then some (lineText page.chars t, lavg)
            else none
          else none)

/-! The heading regexes of `_CHAPTER_PATTERNS`, as prefix matchers on the
already-stripped text (`re.match` anchors at the start only).  `\s` and
`\w` are modelled on their ASCII range, `re.IGNORECASE` by lowercasing. -/

def isWordChar (c : Char) : Bool := c.isAlpha || c.isDigit || c = '_'

def isRomanChar (c : Char) : Bool :=
  c = 'i' || c = 'v' || c = 'x' || c = 'l' || c = 'c'

/-- `^<kw>\s+(\d+|[ivxlc]+)` with `re.IGNORECASE` (roman letters allowed
iff `allowRoman`; with it `false` this is `^<kw>\s+\d+`). -/
def matchKwNum (kw : List Char) (allowRoman : Bool) (s : List Char) : Bool :=
  if (s.take kw.length).map Char.toLower = kw then
    let r := s.drop kw.length
    (!(r.takeWhile isPyWS).isEmpty) &&
      (match r.dropWhile isPyWS with
       | c :: _ => c.isDigit || (allowRoman && isRomanChar c.toLower)
       | [] => false)
  else false

/-- `^(\d+)\.\s+\w+`. -/
def matchNumDot (s : List Char) : Bool :=
  (!(s.takeWhile Char.isDigit).isEmpty) &&
    (match s.dropWhile Char.isDigit with
     | '.' :: r2 =>
       (!(r2.takeWhile isPyWS).isEmpty) &&
         (match r2.dropWhile isPyWS with
          | c :: _ => isWordChar c
          | [] => false)
     | _ => false)

/-- `pdf.py:_is_chapter_heading`. -/
def _is_chapter_heading (s : String) : Bool :=
  let t := pyStrip s
  if t = "" ∨ 100 < t.length then false
  else
    matchKwNum "chapter".data true t.data || matchKwNum "part".data true t.data ||
      matchNumDot t.data || matchKwNum "section".data false t.data

/-- The font-size pass of `_detect_chapters_by_headings` on one page:
first large text that looks like a heading (`break` after the first). -/
def firstLargeHeading (p : Page) : Option String :=
  (_find_large_text_on_page p).findSome?
    (fun tp => if _is_chapter_heading tp.1 then some tp.1 else none)

/-- The pattern pass: first of the first 5 lines of the page text whose
stripped form looks like a heading. -/
def patternHeading (p : Page) : Option String :=
  ((splitChar '\n' (pageText p).data).take 5).findSome?
    (fun lcs =>
      let line := pyStrip ⟨lcs⟩
      if _is_chapter_heading line then some line else none)

/-- The page loop of `_detect_chapters_by_headings`, with its accumulator
and the `if not any(idx == page_idx ...)` guard before the pattern pass. -/
def detectGo : List Page → Nat → List (Nat × String) → List (Nat × String)
  | [], _, acc => acc
  | p :: rest, idx, acc =>
    let acc1 :=
      match firstLargeHeading p with
      | some t => acc ++ [(idx, t)]
      | none => acc
    let acc2 :=
      if acc1.any (fun e => e.1 = idx) then acc1
      else
        match patternHeading p with
        | some t => acc1 ++ [(idx, t)]
        | none => acc1
    detectGo rest (idx + 1) acc2

/-- `pdf.py:_detect_chapters_by_headings`. -/
def _detect_chapters_by_headings (pages : List Page) : List (Nat × String) :=
  detectGo pages 0 []

/-- Python `a or b` on strings. -/
def pyOr (a b : String) : String := if a ≠ "" then a else b

/-- `pdf.py:_extract_metadata`, over the `pdf.metadata` dict (string
values; `if pdf.metadata:` is the emptiness test). -/
def _extract_metadata (metadata : List (String × String)) : String × String :=
  if metadata.isEmpty then ("", "")
  else
    let g := fun k => (dictGet metadata k).getD ""
    (pyOr (g "Title") (pyOr (g "title") ""),
     pyOr (g "Author") (pyOr (g "author") (pyOr (g "Creator") "")))

/-- `_normalize_text("\n".join(page.extract_text() or "" for pages[start:stop]))`. -/
def chapterTextRange (pages : List Page) (start stop : Nat) : String :=
  normalizeText
    (String.intercalate "\n" (((pages.drop start).take (stop - start)).map pageText))

/-- The end page of the chapter starting at the current boundary: the next
boundary's page, or the page count for the last one. -/
def stopOf (pages : List Page) : List (Nat × String) → Nat
  | (nxt, _) :: _ => nxt
  | [] => pages.length

/-- The detected-chapters branch of `load_pdf`: each boundary spans up to
the next boundary's page (or the end), with the length floor and the
front/back-matter filter. -/
def detChaps (pages : List Page) : List (Nat × String) → List Chapter
  | [] => []
  | (start, title) :: rest =>
    let text := chapterTextRange pages start (stopOf pages rest)
    if text.length < 500 then detChaps pages rest
    else if is_content_chapter title then
      ⟨title, text⟩ :: detChaps pages rest
    else detChaps pages rest

/-- The whole document's normalized text (`full_text`). -/
def fullTextOf (pages : List Page) : String :=
  normalizeText (String.intercalate "\n" (pages.map pageText))

/-- The 10-page chunk starting at page `i` (`chunk_text`). -/
def chunkTextOf (pages : List Page) (i : Nat) : String :=
  normalizeText (String.intercalate "\n" (((pages.drop i).take 10).map pageText))

/-- The no-headings fallback branch of `load_pdf`. -/
def fallbackChapters (pages : List Page) : List Chapter :=
  if 500 < (fullTextOf pages).length then
    if 20 < pages.length then
      ((List.range ((pages.length + 9) / 10)).map (fun k => k * 10)).filterMap
        (fun i =>
          if 500 < (chunkTextOf pages i).length then
            some ⟨"Section " ++ toString (i / 10 + 1), chunkTextOf pages i⟩
          else none)
    else [⟨"Content", fullTextOf pages⟩]
  else []

/-- `pdf.py:load_pdf`, from the point where `pdfplumber.open` has
succeeded.  `stem` is `path.stem`; `metadata` is `pdf.metadata`. -/
def load_pdf (stem : String) (metadata : List (String × String))
    (pages : List Page) : Book :=
  let (title, author) := _extract_metadata metadata
  let bounds := _detect_chapters_by_headings pages
  let chapters :=
    match bounds with
    | [] => fallbackChapters pages
    | _ :: _ => detChaps pages bounds
  ⟨if title ≠ "" then title else stem, author, chapters⟩

/-! ## Shared helper lemmas for the claim theorems -/

theorem is_content_iff (t : String) :
    is_content_chapter t = true ↔ pyStrip (pyLower t) ∉ NON_CONTENT_TITLES := by
  unfold is_content_chapter
  simp

/-- No member of the exclusion set is a prefix of `"section "` nor has
`"section "` as a prefix. -/
theorem noncontent_vs_section :
    ∀ m ∈ NON_CONTENT_TITLES,
      ¬ ("section ".data <+: m.data) ∧ ¬ (m.data <+: "section ".data) := by
  decide

theorem prefix_section_not_noncontent (t P : List Char)
    (h : P <+: ("section ".data ++ t)) : (⟨P⟩ : String) ∉ NON_CONTENT_TITLES := by
  intro hmem
  have hsec : "section ".data <+: ("section ".data ++ t) :=
    ⟨t, rfl⟩
  have hcase := noncontent_vs_section ⟨P⟩ hmem
  by_cases hlen : P.length ≤ "section ".data.length
  · exact hcase.2 (List.prefix_of_prefix_length_le h hsec hlen)
  · exact hcase.1 (List.prefix_of_prefix_length_le hsec h (le_of_not_le hlen))

/-- `pyLower` distributes over the concrete prefix `"Section "`. -/
theorem pyLower_section (s : String) :
    (pyLower ("Section " ++ s)).data =
      "section ".data ++ s.data.map pyLowerChar := by
  show (("Section " ++ s).data.map pyLowerChar) = _
  rw [String.data_append, List.map_append]
  congr 1

theorem pyStrip_data_prefix (x : String) (c : Char) (l : List Char)
    (hx : x.data = c :: l) (hc : isPyWS c = false) :
    (pyStrip x).data <+: c :: l := by
  show pyStripL x.data <+: c :: l
  rw [hx]
  unfold pyStripL
  rw [List.dropWhile_cons_of_neg (by simp [hc])]
  exact List.rdropWhile_prefix isPyWS (l := c :: l)

/-- Any title of the form `"Section " ++ s` survives the front/back-matter
filter: its lowercased, stripped form is a prefix of `"section " ++ ...`,
and no such prefix is in the exclusion set. -/
theorem section_title_content (s : String) :
    is_content_chapter ("Section " ++ s) = true := by
  rw [is_content_iff]
  have hx : (pyLower ("Section " ++ s)).data =
      's' :: ("ection ".data ++ s.data.map pyLowerChar) := by
    rw [pyLower_section]
    rfl
  have hstrip := pyStrip_data_prefix (pyLower ("Section " ++ s)) 's'
    ("ection ".data ++ s.data.map pyLowerChar) hx (by decide)
  have hnot := prefix_section_not_noncontent (s.data.map pyLowerChar)
    (pyStrip (pyLower ("Section " ++ s))).data hstrip
  intro hmem
  exact hnot hmem

/-- Per-page heading resolution: the font-size pass short-circuits the
pattern pass.  `_detect_chapters_by_headings` is proved equal to a
`filterMap` of this function over the enumerated pages. -/
def headingForPage (ip : Nat × Page) : Option (Nat × String) :=
  match firstLargeHeading ip.2 with
  | some t => some (ip.1, t)
  | none => (patternHeading ip.2).map (fun t => (ip.1, t))

theorem headingForPage_fst (ip : Nat × Page) (q : Nat × String)
    (h : headingForPage ip = some q) : q.1 = ip.1 := by
  unfold headingForPage at h
  cases hfl : firstLargeHeading ip.2 with
  | some t =>
    rw [hfl] at h
    simp only [Option.some.injEq] at h
    rw [← h]
  | none =>
    rw [hfl] at h
    cases hph : patternHeading ip.2 with
    | some t =>
      rw [hph] at h
      simp only [Option.map_some', Option.some.injEq] at h
      rw [← h]
    | none => rw [hph] at h; simp at h

theorem detectGo_eq (pages : List Page) :
    ∀ (idx : Nat) (acc : List (Nat × String)), (∀ e ∈ acc, e.1 < idx) →
      detectGo pages idx acc =
        acc ++ (List.enumFrom idx pages).filterMap headingForPage := by
  induction pages with
  | nil => intro idx acc _; simp [detectGo]
  | cons p rest ih =>
    intro idx acc hacc
    show detectGo (p :: rest) idx acc = _
    unfold detectGo
    cases hfl : firstLargeHeading p with
    | some t =>
      have hany : (acc ++ [(idx, t)]).any (fun e => e.1 = idx) = true := by
        simp
      simp only [hfl, hany, if_true]
      rw [ih (idx + 1) (acc ++ [(idx, t)]) (by
        intro e he
        rcases List.mem_append.mp he with h | h
        · exact Nat.lt_succ_of_lt (hacc e h)
        · have : e.1 = idx := by rw [List.mem_singleton.mp h]
          omega)]
      simp [List.enumFrom, List.filterMap_cons, headingForPage, hfl]
    | none =>
      have hany : acc.any (fun e => e.1 = idx) = false := by
        rw [List.any_eq_false]
        intro e he
        have := hacc e he
        simp
        omega
      simp only [hfl, hany]
      cases hph : patternHeading p with
      | some t =>
        simp only [Bool.false_eq_true, if_false]
        rw [ih (idx + 1) (acc ++ [(idx, t)]) (by
          intro e he
          rcases List.mem_append.mp he with h | h
          · exact Nat.lt_succ_of_lt (hacc e h)
          · have : e.1 = idx := by rw [List.mem_singleton.mp h]
            omega)]
        simp [List.enumFrom, List.filterMap_cons, headingForPage, hfl, hph]
      | none =>
        simp only [Bool.false_eq_true, if_false]
        rw [ih (idx + 1) acc (fun e he => Nat.lt_succ_of_lt (hacc e he))]
        simp [List.enumFrom, List.filterMap_cons, headingForPage, hfl, hph]

theorem detect_eq_filterMap (pages : List Page) :
    _detect_chapters_by_headings pages =
      pages.enum.filterMap headingForPage := by
  unfold _detect_chapters_by_headings
  rw [detectGo_eq pages 0 [] (by simp)]
  simp [List.enum]

theorem filterMap_headingForPage_lt (pages : List Page) :
    ∀ (idx : Nat) (e : Nat × String),
      e ∈ (List.enumFrom idx pages).filterMap headingForPage → idx ≤ e.1 := by
  induction pages with
  | nil => intro idx e he; simp at he
  | cons p rest ih =>
    intro idx e he
    simp only [List.enumFrom, List.filterMap_cons] at he
    cases hh : headingForPage (idx, p) with
    | none =>
      rw [hh] at he
      have := ih (idx + 1) e he
      omega
    | some q =>
      rw [hh] at he
      rcases List.mem_cons.mp he with h | h
      · subst h
        have : e.1 = idx := headingForPage_fst (idx, p) e hh
        omega
      · have := ih (idx + 1) e h
        omega

theorem pairwise_headingForPage (pages : List Page) :
    ∀ idx, List.Pairwise (fun a b => a.1 < b.1)
      ((List.enumFrom idx pages).filterMap headingForPage) := by
  induction pages with
  | nil => intro idx; simp
  | cons p rest ih =>
    intro idx
    simp only [List.enumFrom, List.filterMap_cons]
    cases hh : headingForPage (idx, p) with
    | none => exact ih (idx + 1)
    | some q =>
      refine List.Pairwise.cons ?_ (ih (idx + 1))
      intro b hb
      have h1 := filterMap_headingForPage_lt rest (idx + 1) b hb
      have h2 : q.1 = idx := headingForPage_fst (idx, p) q hh
      omega

/-- Inversion of a successful `load_epub`: some NCX mapping reached the
assembly stage. -/
theorem load_epub_ok (stem : String) (readB : String → Option (List Nat))
    (decode : List Nat → Option String)
    (pN : String → Option (List NavPoint)) (pH : String → Option XTree)
    (opf : OpfResult) (opfDir : String) (b : Book)
    (h : load_epub stem readB decode pN pH opf opfDir = .ok b) :
    ∃ m, assembleBook stem readB decode pH opf opfDir m = .ok b := by
  unfold load_epub at h
  cases hx : opf.ncxHref with
  | none =>
    rw [hx] at h
    dsimp only at h
    exact ⟨[], h⟩
  | some hh =>
    rw [hx] at h
    dsimp only at h
    by_cases hne : hh ≠ ""
    · rw [if_pos hne] at h
      cases hp : _parse_ncx readB decode pN (joinOpf opfDir hh) with
      | error e =>
        rw [hp] at h
        simp at h
      | ok m =>
        rw [hp] at h
        exact ⟨m, h⟩
    · rw [if_neg hne] at h
      exact ⟨[], h⟩

theorem assembleBook_ok (stem : String) (readB : String → Option (List Nat))
    (decode : List Nat → Option String) (pH : String → Option XTree)
    (opf : OpfResult) (opfDir : String) (m : List (String × String)) (b : Book)
    (h : assembleBook stem readB decode pH opf opfDir m = .ok b) :
    b.title = (if opf.title ≠ "" then opf.title else stem) ∧
      b.author = opf.author ∧
      buildChapters readB decode pH opfDir m opf.spineItems.enum =
        .ok b.chapters := by
  unfold assembleBook at h
  split at h
  · exact absurd h (by simp)
  · next chs hb =>
    simp only [Except.ok.injEq] at h
    subst h
    exact ⟨rfl, rfl, hb⟩

/-- A chapter the spine loop emits passed both filters. -/
theorem chapterForEntry_ok (readB : String → Option (List Nat))
    (decode : List Nat → Option String) (pH : String → Option XTree)
    (opfDir : String) (m : List (String × String)) (i : Nat) (href : String)
    (ch : Chapter)
    (h : chapterForEntry readB decode pH opfDir m i href = .ok (some ch)) :
    500 ≤ ch.text.length ∧ is_content_chapter ch.title = true := by
  simp only [chapterForEntry] at h
  cases hrb : readB (splitHashHead (joinOpf opfDir href)) with
  | none => rw [hrb] at h; simp at h
  | some bs =>
    rw [hrb] at h
    dsimp only at h
    cases hdec : decode bs with
    | none => rw [hdec] at h; simp at h
    | some content =>
      rw [hdec] at h
      dsimp only at h
      by_cases h1 : _extract_text_from_html content = "" ∨
          (_extract_text_from_html content).length < 500
      · rw [if_pos h1] at h; simp at h
      · rw [if_neg h1] at h
        by_cases h2 :
            is_content_chapter (resolveTitle m pH i href content) = true
        · rw [if_pos h2] at h
          simp only [Except.ok.injEq, Option.some.injEq] at h
          subst h
          push_neg at h1
          refine ⟨?_, ?_⟩
          · show 500 ≤ (_extract_text_from_html content).length
            omega
          · show is_content_chapter (resolveTitle m pH i href content) = true
            exact h2
        · rw [if_neg h2] at h; simp at h

theorem buildChapters_invariant (readB : String → Option (List Nat))
    (decode : List Nat → Option String) (pH : String → Option XTree)
    (opfDir : String) (m : List (String × String)) :
    ∀ (entries : List (Nat × (String × String))) (chs : List Chapter),
      buildChapters readB decode pH opfDir m entries = .ok chs →
      ∀ ch ∈ chs, 500 ≤ ch.text.length ∧ is_content_chapter ch.title = true := by
  intro entries
  induction entries with
  | nil =>
    intro chs h ch hch
    simp only [buildChapters, Except.ok.injEq] at h
    subst h
    simp at hch
  | cons e rest ih =>
    obtain ⟨i, item⟩ := e
    intro chs h ch hch
    unfold buildChapters at h
    cases he : chapterForEntry readB decode pH opfDir m i item.2 with
    | error msg => rw [he] at h; simp at h
    | ok o =>
      rw [he] at h
      cases o with
      | none => exact ih chs h ch hch
      | some ch0 =>
        dsimp only at h
        cases hrest : buildChapters readB decode pH opfDir m rest with
        | error msg => rw [hrest] at h; simp at h
        | ok chs' =>
          rw [hrest] at h
          simp only [Except.ok.injEq] at h
          subst h
          rcases List.mem_cons.mp hch with h0 | h0
          · subst h0
            exact chapterForEntry_ok readB decode pH opfDir m i item.2 ch he
          · exact ih chs' hrest ch h0

/-- The chapters of the detected-boundaries branch of `load_pdf` passed
both filters. -/
theorem detChaps_invariant (pages : List Page) :
    ∀ (bounds : List (Nat × String)) (ch : Chapter),
      ch ∈ detChaps pages bounds →
      500 ≤ ch.text.length ∧ is_content_chapter ch.title = true := by
  intro bounds
  induction bounds with
  | nil => intro ch hch; simp [detChaps] at hch
  | cons b rest ih =>
    obtain ⟨start, title⟩ := b
    intro ch hch
    unfold detChaps at hch
    dsimp only at hch
    split at hch
    · exact ih ch hch
    · split at hch
      · next h1 h2 =>
        rcases List.mem_cons.mp hch with h0 | h0
        · subst h0
          constructor
          · simpa using Nat.le_of_not_lt h1
          · exact h2
        · exact ih ch h0
      · exact ih ch hch

theorem okOf_eq {α : Type} (e : Except String α) (a : α)
    (h : okOf e = some a) : e = .ok a := by
  cases e with
  | ok x =>
    simp only [okOf, Option.some.injEq] at h
    rw [h]
  | error m => simp [okOf] at h

/-- `(load_pdf ...)` field characterization, shared by several claims. -/
theorem load_pdf_fields (stem : String) (md : List (String × String))
    (pages : List Page) :
    (load_pdf stem md pages).title =
      (if (_extract_metadata md).1 ≠ "" then (_extract_metadata md).1 else stem) ∧
    (load_pdf stem md pages).author = (_extract_metadata md).2 ∧
    (load_pdf stem md pages).chapters =
      (match _detect_chapters_by_headings pages with
       | [] => fallbackChapters pages
       | _ :: _ => detChaps pages (_detect_chapters_by_headings pages)) := by
  unfold load_pdf
  cases hme : _extract_metadata md with
  | mk t a =>
    dsimp only
    exact ⟨rfl, rfl, rfl⟩

/-- The no-headings fallback chapters pass the length floor and the
front/back-matter filter. -/
theorem fallback_invariant (pages : List Page) :
    ∀ ch ∈ fallbackChapters pages,
      500 ≤ ch.text.length ∧ is_content_chapter ch.title = true := by
  intro ch hch
  unfold fallbackChapters at hch
  by_cases hfull : 500 < (fullTextOf pages).length
  · rw [if_pos hfull] at hch
    by_cases hlen : 20 < pages.length
    · rw [if_pos hlen] at hch
      rw [List.mem_filterMap] at hch
      obtain ⟨i, _, hf⟩ := hch
      by_cases hc : 500 < (chunkTextOf pages i).length
      · rw [if_pos hc] at hf
        simp only [Option.some.injEq] at hf
        subst hf
        constructor
        · simpa using Nat.le_of_lt hc
        · show is_content_chapter ("Section " ++ toString (i / 10 + 1)) = true
          exact section_title_content _
      · rw [if_neg hc] at hf
        simp at hf
    · rw [if_neg hlen] at hch
      rcases List.mem_singleton.mp hch with rfl
      constructor
      · simpa using Nat.le_of_lt hfull
      · show is_content_chapter "Content" = true
        decide
  · rw [if_neg hfull] at hch
    simp at hch

/-- **C1.** For every `Book` a successful `load_epub` returns and every
`Book` `load_pdf` returns, every chapter has text of length at least 500
and a title whose lowercased, trimmed form is not in the fixed front/back
matter exclusion set. -/
theorem produced_chapters_invariant :
    (∀ (stem : String) readB decode pN pH (opf : OpfResult) (opfDir : String)
        (b : Book), load_epub stem readB decode pN pH opf opfDir = .ok b →
        ∀ ch ∈ b.chapters, 500 ≤ ch.text.length ∧
          pyStrip (pyLower ch.title) ∉ NON_CONTENT_TITLES) ∧
    (∀ (stem : String) (md : List (String × String)) (pages : List Page),
        ∀ ch ∈ (load_pdf stem md pages).chapters, 500 ≤ ch.text.length ∧
          pyStrip (pyLower ch.title) ∉ NON_CONTENT_TITLES) := by
  constructor
  · intro stem readB decode pN pH opf opfDir b hload ch hch
    obtain ⟨m, hasm⟩ := load_epub_ok stem readB decode pN pH opf opfDir b hload
    obtain ⟨_, _, hbuild⟩ :=
      assembleBook_ok stem readB decode pH opf opfDir m b hasm
    have hinv := buildChapters_invariant readB decode pH opfDir m
      opf.spineItems.enum b.chapters hbuild ch hch
    exact ⟨hinv.1, (is_content_iff ch.title).mp hinv.2⟩
  · intro stem md pages ch hch
    rw [(load_pdf_fields stem md pages).2.2] at hch
    cases hd : _detect_chapters_by_headings pages with
    | nil =>
      rw [hd] at hch
      have hinv := fallback_invariant pages ch hch
      exact ⟨hinv.1, (is_content_iff ch.title).mp hinv.2⟩
    | cons q qs =>
      rw [hd] at hch
      dsimp only at hch
      have hinv := detChaps_invariant pages (q :: qs) ch hch
      exact ⟨hinv.1, (is_content_iff ch.title).mp hinv.2⟩

/-- Witness for `produced_chapters_invariant`: the one chapter of the
concrete EPUB container defined above. -/
theorem produced_chapters_invariant_witness :
    500 ≤ (⟨"Chapter 1", cexBigHtml⟩ : Chapter).text.length ∧
      pyStrip (pyLower "Chapter 1") ∉ NON_CONTENT_TITLES := by
  have h : load_epub "b" cexReadB cexDecode cexParseNcx (fun _ => none)
      cexOpf "." = .ok ⟨"T", "A", [⟨"Chapter 1", cexBigHtml⟩]⟩ := by
    apply okOf_eq
    set_option maxRecDepth 4000 in decide
  exact produced_chapters_invariant.1 "b" cexReadB cexDecode cexParseNcx
    (fun _ => none) cexOpf "." ⟨"T", "A", [⟨"Chapter 1", cexBigHtml⟩]⟩ h
    ⟨"Chapter 1", cexBigHtml⟩ (by simp)

/-- **C5.** With zero detected headings, `load_pdf` falls back to a single
`"Content"` chapter holding the whole document when it has at most 20
pages, and to sequential 10-page `"Section N"` chunks otherwise; a 30-page
document with no headings and enough text in every chunk yields exactly
three `"Section N"` chapters of 10 pages each. -/
theorem pdf_no_heading_fallback :
    (∀ (stem : String) (md : List (String × String)) (pages : List Page),
        _detect_chapters_by_headings pages = [] →
        500 < (fullTextOf pages).length → pages.length ≤ 20 →
        (load_pdf stem md pages).chapters = [⟨"Content", fullTextOf pages⟩]) ∧
    (∀ (stem : String) (md : List (String × String)) (pages : List Page),
        _detect_chapters_by_headings pages = [] →
        500 < (fullTextOf pages).length → pages.length = 30 →
        500 < (chunkTextOf pages 0).length →
        500 < (chunkTextOf pages 10).length →
        500 < (chunkTextOf pages 20).length →
        (load_pdf stem md pages).chapters =
          [⟨"Section 1", chunkTextOf pages 0⟩,
           ⟨"Section 2", chunkTextOf pages 10⟩,
           ⟨"Section 3", chunkTextOf pages 20⟩]) := by
  constructor
  · intro stem md pages hdet hfull hlen
    rw [(load_pdf_fields stem md pages).2.2, hdet]
    unfold fallbackChapters
    rw [if_pos hfull, if_neg (by omega)]
  · intro stem md pages hdet hfull hlen h0 h10 h20
    rw [(load_pdf_fields stem md pages).2.2, hdet]
    unfold fallbackChapters
    rw [if_pos hfull, if_pos (by omega), hlen]
    show List.filterMap _ ((List.range 3).map (fun k => k * 10)) = _
    simp only [List.range_succ, List.range_zero, List.map_append, List.map_cons,
      List.map_nil, List.filterMap_append, List.filterMap_cons, List.filterMap_nil]
    rw [if_pos h0, if_pos h10, if_pos h20]
    rfl

/-- Witness for `pdf_no_heading_fallback`: 30 pages of 51 `b`s each, no
chars, no headings — three 519-character sections. -/
theorem pdf_no_heading_fallback_witness :
    (_detect_chapters_by_headings (List.replicate 30
        (⟨[], some ⟨List.replicate 51 'b'⟩⟩ : Page)) = [] ∧
      (List.replicate 30 (⟨[], some ⟨List.replicate 51 'b'⟩⟩ : Page)).length = 30) ∧
    (load_pdf "doc" [] (List.replicate 30
        (⟨[], some ⟨List.replicate 51 'b'⟩⟩ : Page))).chapters =
      [⟨"Section 1", chunkTextOf (List.replicate 30
          (⟨[], some ⟨List.replicate 51 'b'⟩⟩ : Page)) 0⟩,
       ⟨"Section 2", chunkTextOf (List.replicate 30
          (⟨[], some ⟨List.replicate 51 'b'⟩⟩ : Page)) 10⟩,
       ⟨"Section 3", chunkTextOf (List.replicate 30
          (⟨[], some ⟨List.replicate 51 'b'⟩⟩ : Page)) 20⟩] := by
  refine ⟨⟨?_, ?_⟩, ?_⟩
  · set_option maxRecDepth 4000 in decide
  · decide
  · apply pdf_no_heading_fallback.2 "doc" []
    · set_option maxRecDepth 4000 in decide
    · set_option maxRecDepth 8000 in decide
    · decide
    · set_option maxRecDepth 8000 in decide
    · set_option maxRecDepth 8000 in decide
    · set_option maxRecDepth 8000 in decide

/-! Concrete pages for the heading-detector claim: each has an oversized
line at top 0 (one 30-point glyph against a page mean of 20) and a small
line at top 1.  On `cexWsPage` the oversized glyph is a space, so its
stripped line text is empty; on `witHeadingPage` it reads `"Chapter 3"`. -/

def cexWsPage : Page :=
  ⟨[⟨some 30, some 0, some 0, some " "⟩,
    ⟨some 10, some 1, some 0, some "a"⟩], some "x"⟩

def witHeadingPage : Page :=
  ⟨[⟨some 30, some 0, some 0, some "Chapter 3"⟩,
    ⟨some 10, some 1, some 0, some "a"⟩], some "x"⟩

theorem pyRound1_zero : pyRound1 0 = 0 := by norm_num [pyRound1]

theorem pyRound1_one : pyRound1 1 = 1 := by norm_num [pyRound1]

theorem cexWsPage_sizes : glyphSizes cexWsPage.chars = [30, 10] := by
  norm_num [cexWsPage, glyphSizes, sizeTruthy, bne_iff_ne, List.filterMap_cons, List.filterMap_nil, List.filter_cons, List.filter_nil, List.map_cons, List.map_nil, Option.getD_some]

theorem cexWsPage_tops : sortedTops cexWsPage.chars = [0, 1] := by
  norm_num [cexWsPage, sortedTops, pyRound1_zero, pyRound1_one, sortQ,
    insertQ, List.dedup_cons_of_not_mem, List.filterMap_cons, List.filterMap_nil, List.filter_cons, List.filter_nil, List.map_cons, List.map_nil, Option.getD_some]

theorem cexWsPage_line0 :
    lineChars cexWsPage.chars (pyRound1 0) =
      [⟨some 30, some 0, some 0, some " "⟩] := by
  norm_num [cexWsPage, lineChars, pyRound1_zero, pyRound1_one, List.filterMap_cons, List.filterMap_nil, List.filter_cons, List.filter_nil, List.map_cons, List.map_nil, Option.getD_some]

theorem cexWsPage_line1 :
    lineChars cexWsPage.chars (1 : ℚ) =
      [⟨some 10, some 1, some 0, some "a"⟩] := by
  norm_num [cexWsPage, lineChars, pyRound1_zero, pyRound1_one, List.filterMap_cons, List.filterMap_nil, List.filter_cons, List.filter_nil, List.map_cons, List.map_nil, Option.getD_some]

theorem cexWsPage_find : _find_large_text_on_page cexWsPage = [] := by
  have hl0 : lineChars cexWsPage.chars (0 : ℚ) =
      [⟨some 30, some 0, some 0, some " "⟩] := by
    have := cexWsPage_line0
    rwa [pyRound1_zero] at this
  have hstrip : lineText cexWsPage.chars (0 : ℚ) = "" := by
    rw [lineText, hl0]
    decide
  unfold _find_large_text_on_page
  rw [show cexWsPage.chars.isEmpty = false from rfl]
  dsimp only
  rw [cexWsPage_sizes]
  norm_num [cexWsPage_tops, hl0, cexWsPage_line1, meanQ, hstrip,
    glyphSizes, sizeTruthy, bne_iff_ne, List.filterMap_cons, List.filterMap_nil, List.filter_cons, List.filter_nil, List.map_cons, List.map_nil, Option.getD_some]

/-- **C6, counterexample.** A line whose mean glyph size exceeds 1.2× the
page mean is *not* always a heading candidate: on `cexWsPage` the
oversized line's mean is 30 against a page mean of 20, yet
`_find_large_text_on_page` returns nothing because the line's concatenated
text strips to the empty string. -/
theorem heading_candidate_cex :
    meanQ (glyphSizes cexWsPage.chars) * (6/5) <
      meanQ (glyphSizes (lineChars cexWsPage.chars (pyRound1 0))) ∧
    pyRound1 0 ∈ sortedTops cexWsPage.chars ∧
    _find_large_text_on_page cexWsPage = [] := by
  refine ⟨?_, ?_, cexWsPage_find⟩
  · rw [cexWsPage_sizes, cexWsPage_line0]
    norm_num [glyphSizes, sizeTruthy, bne_iff_ne, meanQ, List.filterMap_cons, List.filterMap_nil, List.filter_cons, List.filter_nil, List.map_cons, List.map_nil, Option.getD_some]
  · rw [cexWsPage_tops, pyRound1_zero]
    norm_num

/-- **C6, amended.** A line is a heading candidate whenever its mean glyph
size exceeds 1.2× the page mean *and* its concatenated, stripped text is
non-empty (and it has sized glyphs at all); at most one heading is
accepted per page (the accepted page indices are strictly increasing); and
the detector equals a per-page resolution in which a font-size hit
short-circuits the pattern check for that page. -/
theorem heading_detector_behavior :
    (∀ (p : Page) (t : ℚ), p.chars.isEmpty = false →
        (glyphSizes p.chars).isEmpty = false →
        t ∈ sortedTops p.chars →
        (glyphSizes (lineChars p.chars t)).isEmpty = false →
        meanQ (glyphSizes p.chars) * (6/5) <
          meanQ (glyphSizes (lineChars p.chars t)) →
        lineText p.chars t ≠ "" →
        (lineText p.chars t, meanQ (glyphSizes (lineChars p.chars t))) ∈
          _find_large_text_on_page p) ∧
    (∀ pages : List Page, _detect_chapters_by_headings pages =
        pages.enum.filterMap headingForPage) ∧
    (∀ pages : List Page, List.Pairwise (fun a b => a.1 < b.1)
        (_detect_chapters_by_headings pages)) := by
  refine ⟨?_, ?_, ?_⟩
  · intro p t hne hsz ht hlsz hgt htxt
    unfold _find_large_text_on_page
    rw [hne]
    dsimp only
    rw [hsz]
    simp only [Bool.false_eq_true, if_false, List.mem_filterMap]
    refine ⟨t, ht, ?_⟩
    dsimp only
    rw [hlsz]
    simp only [Bool.false_eq_true, if_false]
    rw [if_pos hgt, if_pos htxt]
  · intro pages
    exact detect_eq_filterMap pages
  · intro pages
    rw [detect_eq_filterMap pages]
    exact pairwise_headingForPage pages 0

theorem witHeadingPage_sizes : glyphSizes witHeadingPage.chars = [30, 10] := by
  norm_num [witHeadingPage, glyphSizes, sizeTruthy, bne_iff_ne, List.filterMap_cons, List.filterMap_nil, List.filter_cons, List.filter_nil, List.map_cons, List.map_nil, Option.getD_some]

theorem witHeadingPage_tops : sortedTops witHeadingPage.chars = [0, 1] := by
  norm_num [witHeadingPage, sortedTops, pyRound1_zero, pyRound1_one, sortQ,
    insertQ, List.dedup_cons_of_not_mem, List.filterMap_cons, List.filterMap_nil, List.filter_cons, List.filter_nil, List.map_cons, List.map_nil, Option.getD_some]

theorem witHeadingPage_line0 :
    lineChars witHeadingPage.chars (0 : ℚ) =
      [⟨some 30, some 0, some 0, some "Chapter 3"⟩] := by
  norm_num [witHeadingPage, lineChars, pyRound1_zero, pyRound1_one, List.filterMap_cons, List.filterMap_nil, List.filter_cons, List.filter_nil, List.map_cons, List.map_nil, Option.getD_some]

/-- Witness for `heading_detector_behavior`: on `witHeadingPage` the
oversized `"Chapter 3"` line is a candidate, and the detector on a
two-page document equals the per-page short-circuit resolution. -/
theorem heading_detector_behavior_witness :
    (witHeadingPage.chars.isEmpty = false ∧
      ("Chapter 3",
        meanQ (glyphSizes (lineChars witHeadingPage.chars (0 : ℚ)))) ∈
        _find_large_text_on_page witHeadingPage) ∧
    _detect_chapters_by_headings [witHeadingPage, cexWsPage] =
      [witHeadingPage, cexWsPage].enum.filterMap headingForPage := by
  constructor
  · have htxt : lineText witHeadingPage.chars (0 : ℚ) = "Chapter 3" := by
      rw [lineText, witHeadingPage_line0]
      decide
    refine ⟨rfl, ?_⟩
    have h := heading_detector_behavior.1 witHeadingPage 0
      rfl
      (by rw [witHeadingPage_sizes]; rfl)
      (by rw [witHeadingPage_tops]; norm_num)
      (by rw [witHeadingPage_line0]; norm_num [glyphSizes, sizeTruthy, bne_iff_ne, List.filterMap_cons, List.filterMap_nil, List.filter_cons, List.filter_nil, List.map_cons, List.map_nil, Option.getD_some])
      (by rw [witHeadingPage_sizes, witHeadingPage_line0]
          norm_num [glyphSizes, sizeTruthy, bne_iff_ne, meanQ, List.filterMap_cons, List.filterMap_nil, List.filter_cons, List.filter_nil, List.map_cons, List.map_nil, Option.getD_some])
      (by rw [htxt]; decide)
    rw [htxt] at h
    exact h
  · exact heading_detector_behavior.2.1 [witHeadingPage, cexWsPage]

/-- **C8, counterexample.** The author does *not* default to a
filename-derived value: an EPUB with no metadata at all loads with
`title = "mybook"` (the stem) but `author = ""`, which is not the stem. -/
theorem metadata_defaults_cex :
    okOf (load_epub "mybook" (fun _ => none) (fun _ => none) (fun _ => none)
        (fun _ => none) ⟨"", "", [], none⟩ ".") =
      some ⟨"mybook", "", []⟩ ∧ ("" : String) ≠ "mybook" := by
  refine ⟨by decide, by decide⟩

/-- **C8, amended.** In both loaders the produced title is the metadata
title when non-empty and the path stem otherwise, while the author is the
metadata author unchanged (empty string when absent — never
filename-derived). -/
theorem metadata_defaults :
    (∀ (stem : String) readB decode pN pH (opf : OpfResult) (opfDir : String)
        (b : Book), load_epub stem readB decode pN pH opf opfDir = .ok b →
        b.title = (if opf.title ≠ "" then opf.title else stem) ∧
          b.author = opf.author) ∧
    (∀ (stem : String) (md : List (String × String)) (pages : List Page),
        (load_pdf stem md pages).title =
          (if (_extract_metadata md).1 ≠ "" then (_extract_metadata md).1
           else stem) ∧
        (load_pdf stem md pages).author = (_extract_metadata md).2) := by
  constructor
  · intro stem readB decode pN pH opf opfDir b hload
    obtain ⟨m, hasm⟩ := load_epub_ok stem readB decode pN pH opf opfDir b hload
    have h := assembleBook_ok stem readB decode pH opf opfDir m b hasm
    exact ⟨h.1, h.2.1⟩
  · intro stem md pages
    exact ⟨(load_pdf_fields stem md pages).1, (load_pdf_fields stem md pages).2.1⟩

/-- Witness for `metadata_defaults`: the concrete EPUB container with
metadata `("T", "A")` keeps both values. -/
theorem metadata_defaults_witness :
    ((⟨"T", "A", [⟨"Chapter 1", cexBigHtml⟩]⟩ : Book).title =
        (if ("T" : String) ≠ "" then "T" else "b") ∧
      (⟨"T", "A", [⟨"Chapter 1", cexBigHtml⟩]⟩ : Book).author = "A") ∧
    ((load_pdf "doc" [("Author", "Ann")] []).title = "doc" ∧
      (load_pdf "doc" [("Author", "Ann")] []).author = "Ann") := by
  constructor
  · have h : load_epub "b" cexReadB cexDecode cexParseNcx (fun _ => none)
        cexOpf "." = .ok ⟨"T", "A", [⟨"Chapter 1", cexBigHtml⟩]⟩ := by
      apply okOf_eq
      set_option maxRecDepth 4000 in decide
    exact metadata_defaults.1 "b" cexReadB cexDecode cexParseNcx
      (fun _ => none) cexOpf "." ⟨"T", "A", [⟨"Chapter 1", cexBigHtml⟩]⟩ h
  · have h := metadata_defaults.2 "doc" [("Author", "Ann")] []
    constructor
    · rw [h.1]
      decide
    · rw [h.2]
      decide

end BW

